import Mathlib

/-!
Verification of the secio handshake context and the service control-task
vocabulary of the `p2p` repository, as a shallow embedding in Lean 4.

The embedding follows `src/secio/src/handshake/handshake_context.rs` and
`src/src/service/event.rs`.  Collaborator code that the repository uses but
that is not part of the provided sources (the flatbuffer codec of
`handshake_struct.rs`, the algorithm tables of `support.rs`, the error enum
of `error.rs`, and the SHA-256 primitive of the `sha2` crate) is modelled
explicitly; each such definition says so in its doc comment.

Machine bytes are modelled as `Nat` (values < 256 in well-formed data),
byte buffers as `List Nat`, and 32-bit arithmetic is done in `Nat` with
explicit reduction modulo 2^32.
-/

set_option maxRecDepth 40000

namespace P2P

/-- Byte buffers (`Vec<u8>` / `BytesMut` / `&[u8]`). -/
abbrev Bytes := List Nat

/-! ### 32-bit arithmetic helpers (for the SHA-256 primitive) -/

/-- Truncate to a 32-bit word. -/
def w32 (x : Nat) : Nat := x % 4294967296

/-- Logical right shift on 32-bit words. -/
def shr32 (n x : Nat) : Nat := x / 2 ^ n

/-- Right rotation on 32-bit words. -/
def rotr32 (n x : Nat) : Nat := x / 2 ^ n + x % 2 ^ n * 2 ^ (32 - n)

/-! ### SHA-256

Modelled from the `sha2` crate used by `handshake_context.rs`: the standard
FIPS 180-4 SHA-256 function, taking a byte string to its 32-byte digest.
-/

def sha256K : List Nat :=
  [1116352408, 1899447441, 3049323471, 3921009573, 961987163, 1508970993,
   2453635748, 2870763221, 3624381080, 310598401, 607225278, 1426881987,
   1925078388, 2162078206, 2614888103, 3248222580, 3835390401, 4022224774,
   264347078, 604807628, 770255983, 1249150122, 1555081692, 1996064986,
   2554220882, 2821834349, 2952996808, 3210313671, 3336571891, 3584528711,
   113926993, 338241895, 666307205, 773529912, 1294757372, 1396182291,
   1695183700, 1986661051, 2177026350, 2456956037, 2730485921, 2820302411,
   3259730800, 3345764771, 3516065817, 3600352804, 4094571909, 275423344,
   430227734, 506948616, 659060556, 883997877, 958139571, 1322822218,
   1537002063, 1747873779, 1955562222, 2024104815, 2227730452, 2361852424,
   2428436474, 2756734187, 3204031479, 3329325298]

def sha256H0 : List Nat :=
  [1779033703, 3144134277, 1013904242, 2773480762, 1359893119, 2600822924,
   528734635, 1541459225]

def shaCh (x y z : Nat) : Nat := (x &&& y) ^^^ ((x ^^^ 4294967295) &&& z)

def shaMaj (x y z : Nat) : Nat := (x &&& y) ^^^ (x &&& z) ^^^ (y &&& z)

def bigSigma0 (x : Nat) : Nat := rotr32 2 x ^^^ rotr32 13 x ^^^ rotr32 22 x

def bigSigma1 (x : Nat) : Nat := rotr32 6 x ^^^ rotr32 11 x ^^^ rotr32 25 x

def smallSigma0 (x : Nat) : Nat := rotr32 7 x ^^^ rotr32 18 x ^^^ shr32 3 x

def smallSigma1 (x : Nat) : Nat := rotr32 17 x ^^^ rotr32 19 x ^^^ shr32 10 x

/-- Big-endian 32-bit word from four bytes. -/
def fromBE4 (a b c d : Nat) : Nat := ((a * 256 + b) * 256 + c) * 256 + d

/-- Big-endian 4-byte encoding of a 32-bit value. -/
def toBE4 (n : Nat) : Bytes :=
  [n / 16777216 % 256, n / 65536 % 256, n / 256 % 256, n % 256]

/-- Big-endian 8-byte encoding of a 64-bit value. -/
def toBE8 (n : Nat) : Bytes :=
  [n / 72057594037927936 % 256, n / 281474976710656 % 256,
   n / 1099511627776 % 256, n / 4294967296 % 256,
   n / 16777216 % 256, n / 65536 % 256, n / 256 % 256, n % 256]

/-- Pack bytes into big-endian 32-bit words (fuel-driven structural recursion). -/
def packWords : Nat → Bytes → List Nat
  | 0, _ => []
  | _ + 1, a :: b :: c :: d :: rest => fromBE4 a b c d :: packWords rest.length rest
  | _ + 1, _ => []

/-- SHA-256 padding: append `0x80`, zeros to 56 mod 64, then the 64-bit bit length. -/
def shaPad (msg : Bytes) : Bytes :=
  let z := (119 - msg.length % 64) % 64
  msg ++ 128 :: List.replicate z 0 ++ toBE8 (8 * msg.length)

/-- Extend the (reversed) first 16 schedule words by `n` further words. -/
def extendW : Nat → List Nat → List Nat
  | 0, r => r
  | n + 1, r =>
      extendW n
        (w32 (smallSigma1 (r.getD 1 0) + r.getD 6 0 +
              smallSigma0 (r.getD 14 0) + r.getD 15 0) :: r)

/-- One SHA-256 compression round on the state `[a,b,c,d,e,f,g,h]`. -/
def shaRound (wk : Nat × Nat) (s : List Nat) : List Nat :=
  match s with
  | [a, b, c, d, e, f, g, h] =>
      let t1 := w32 (h + bigSigma1 e + shaCh e f g + wk.2 + wk.1)
      let t2 := w32 (bigSigma0 a + shaMaj a b c)
      [w32 (t1 + t2), a, b, c, w32 (d + t1), e, f, g]
  | other => other

def shaRounds : List (Nat × Nat) → List Nat → List Nat
  | [], s => s
  | wk :: rest, s => shaRounds rest (shaRound wk s)

/-- Compress one 64-byte block into the running hash state. -/
def compressBlock (h : List Nat) (block : Bytes) : List Nat :=
  let w16 := packWords block.length block
  let w := (extendW 48 w16.reverse).reverse
  let s := shaRounds (w.zip sha256K) h
  (h.zip s).map fun p => w32 (p.1 + p.2)

/-- Fold the compression over consecutive 64-byte blocks (fuel-driven). -/
def shaBlocks : Nat → List Nat → Bytes → List Nat
  | 0, h, _ => h
  | _ + 1, h, [] => h
  | fuel + 1, h, msg => shaBlocks fuel (compressBlock h (msg.take 64)) (msg.drop 64)

/-- SHA-256 digest of a byte string, as 32 bytes.
Modelled from the `sha2` crate (standard FIPS 180-4 SHA-256). -/
def sha256 (msg : Bytes) : Bytes :=
  let padded := shaPad msg
  let h := shaBlocks padded.length sha256H0 padded
  h.flatMap toBE4

/-! ### Byte-slice comparison

`oh1.as_ref().cmp(&oh2.as_ref())` in `with_remote` is Rust's lexicographic
ordering on byte slices.
-/

/-- Rust `u8::cmp`. -/
def cmpByte (a b : Nat) : Ordering :=
  if a < b then .lt else if a = b then .eq else .gt

/-- Rust `<[u8]>::cmp`: lexicographic, a strict prefix is smaller. -/
def cmpBytes : Bytes → Bytes → Ordering
  | [], [] => .eq
  | [], _ :: _ => .lt
  | _ :: _, [] => .gt
  | a :: as', b :: bs' =>
      match cmpByte a b with
      | .eq => cmpBytes as' bs'
      | o => o

/-! ### Errors

Modelled from the spec: `error.rs` is not under `src/`.  §7 lists the
handshake error taxonomy `HandshakeParsingFailure, ConnectSelf,
NoSupportIntersection, SignatureFailure, NonceVerificationFailed, IoError,
Timeout`.
-/

inductive SecioError where
  | HandshakeParsingFailure
  | ConnectSelf
  | NoSupportIntersection
  | SignatureFailure
  | NonceVerificationFailed
  | IoError
  | Timeout
deriving DecidableEq, Repr

/-! ### Public keys

Modelled from the spec: `handshake_struct.rs` (the `PublicKey` type with its
flatbuffer `encode`/`decode`) is not under `src/`.  A public key wraps its
raw key bytes (`inner_ref` in the source); its serialization carries a
key-type tag followed by the raw bytes, and `decode` fails on bytes that do
not carry the tag.
-/

structure PublicKey where
  inner : Bytes
deriving DecidableEq, Repr

/-- The raw public-key bytes (`PublicKey::inner_ref`). -/
def PublicKey.inner_ref (k : PublicKey) : Bytes := k.inner

/-- Serialize a public key: key-type tag `0` then the raw bytes. -/
def PublicKey.encode (k : PublicKey) : Bytes := 0 :: k.inner

/-- Parse a serialized public key; fails unless the tag is present. -/
def PublicKey.decode : Bytes → Option PublicKey
  | 0 :: rest => some ⟨rest⟩
  | _ => none

/-! ### The Proposition message and its codec

The `Propose` struct carries the fields of spec §6 in this order:
`rand: bytes`, `pubkey: bytes`, `exchange/ciphers/hashes: utf8 CSV strings`.

Modelled from the spec: `handshake_struct.rs` (the flatbuffer
`Propose::encode`/`Propose::decode`) is not under `src/`.  The codec below
is a fixed binary schema serializing the five fields in the spec's order,
each as a 4-byte big-endian length followed by the field's bytes.
-/

structure Propose where
  rand : Bytes
  pubkey : Bytes
  exchange : String
  ciphers : String
  hashes : String
deriving DecidableEq, Repr

/-- `Propose::new()`: all fields empty. -/
def Propose.new : Propose := ⟨[], [], "", "", ""⟩

/-- UTF-8-agnostic byte view of an algorithm-tag string (tags are ASCII). -/
def strBytes (s : String) : Bytes := s.data.map Char.toNat

/-- Inverse of `strBytes` on valid character codes. -/
def bytesStr (b : Bytes) : String := ⟨b.map Char.ofNat⟩

/-- One length-prefixed field block. -/
def encBlock (b : Bytes) : Bytes := toBE4 b.length ++ b

/-- Read one length-prefixed field block, returning it and the rest. -/
def readBlock : Bytes → Option (Bytes × Bytes)
  | a :: b :: c :: d :: rest =>
      let n := fromBE4 a b c d
      if n ≤ rest.length then some (rest.take n, rest.drop n) else none
  | _ => none

/-- Serialize a proposition: the five fields, in order, length-prefixed. -/
def Propose.encode (p : Propose) : Bytes :=
  encBlock p.rand ++ encBlock p.pubkey ++ encBlock (strBytes p.exchange) ++
    encBlock (strBytes p.ciphers) ++ encBlock (strBytes p.hashes)

/-- Parse a proposition; fails on truncated input or trailing bytes. -/
def Propose.decode (b : Bytes) : Option Propose :=
  match readBlock b with
  | none => none
  | some (rand, b) =>
    match readBlock b with
    | none => none
    | some (pubkey, b) =>
      match readBlock b with
      | none => none
      | some (ex, b) =>
        match readBlock b with
        | none => none
        | some (ci, b) =>
          match readBlock b with
          | none => none
          | some (ha, b) =>
            if b = [] then
              some ⟨rand, pubkey, bytesStr ex, bytesStr ci, bytesStr ha⟩
            else none

/-- A proposition the fixed binary schema can frame: every field fits a
4-byte length prefix. -/
def Propose.valid (p : Propose) : Prop :=
  p.rand.length < 4294967296 ∧ p.pubkey.length < 4294967296 ∧
    p.exchange.data.length < 4294967296 ∧ p.ciphers.data.length < 4294967296 ∧
    p.hashes.data.length < 4294967296

instance (p : Propose) : Decidable p.valid := by
  unfold Propose.valid; infer_instance

/-! ### Supported algorithms

Modelled from the spec: `support.rs` is not under `src/`.  §6 gives the
default CSV propositions (most-preferred first); §4.2 gives the selection
rule: if the ordering is `Less` pick from theirs-first, else from
ours-first, taking the first entry of the preferred list that also appears
in the other list, and failing with `NoSupportIntersection` when the lists
do not intersect.
-/

def DEFAULT_AGREEMENTS_PROPOSITION : String := "P-256,P-384,P-521,X25519"

def DEFAULT_CIPHERS_PROPOSITION : String := "AES-128,AES-256,TwofishCTR"

def DEFAULT_DIGESTS_PROPOSITION : String := "SHA256,SHA512"

inductive KeyAgreement where
  | EcdhP256 | EcdhP384 | EcdhP521 | X25519
deriving DecidableEq, Repr

inductive Cipher where
  | Aes128 | Aes256 | TwofishCtr
deriving DecidableEq, Repr

inductive Digest where
  | Sha256 | Sha512
deriving DecidableEq, Repr

/-- Split a CSV tag list at commas (Rust `str::split(',')`). -/
def splitTags : List Char → List (List Char)
  | [] => [[]]
  | ',' :: rest => [] :: splitTags rest
  | c :: rest =>
      match splitTags rest with
      | [] => [[c]]
      | t :: ts => (c :: t) :: ts

/-- The common selection core: probe the preferred list (theirs-first when
the ordering is `Less`, ours-first otherwise) for its first tag present in
the other list. -/
def select_common (r : Ordering) (ours theirs : String) : Option (List Char) :=
  let probe :=
    match r with
    | .lt => (theirs.data, ours.data)
    | _ => (ours.data, theirs.data)
  (splitTags probe.1).find? fun t => (splitTags probe.2).contains t

def agreementOfTag (t : List Char) : Option KeyAgreement :=
  if t = "P-256".data then some .EcdhP256
  else if t = "P-384".data then some .EcdhP384
  else if t = "P-521".data then some .EcdhP521
  else if t = "X25519".data then some .X25519
  else none

def cipherOfTag (t : List Char) : Option Cipher :=
  if t = "AES-128".data then some .Aes128
  else if t = "AES-256".data then some .Aes256
  else if t = "TwofishCTR".data then some .TwofishCtr
  else none

def digestOfTag (t : List Char) : Option Digest :=
  if t = "SHA256".data then some .Sha256
  else if t = "SHA512".data then some .Sha512
  else none

def select_agreement (r : Ordering) (ours theirs : String) :
    Except SecioError KeyAgreement :=
  match select_common r ours theirs with
  | some t =>
      match agreementOfTag t with
      | some a => .ok a
      | none => .error .NoSupportIntersection
  | none => .error .NoSupportIntersection

def select_cipher (r : Ordering) (ours theirs : String) :
    Except SecioError Cipher :=
  match select_common r ours theirs with
  | some t =>
      match cipherOfTag t with
      | some a => .ok a
      | none => .error .NoSupportIntersection
  | none => .error .NoSupportIntersection

def select_digest (r : Ordering) (ours theirs : String) :
    Except SecioError Digest :=
  match select_common r ours theirs with
  | some t =>
      match digestOfTag t with
      | some a => .ok a
      | none => .error .NoSupportIntersection
  | none => .error .NoSupportIntersection

/-! ### Config and key pair

From the uses in `handshake_context.rs`: the config carries the local
long-term key (exposing `to_public_key`) and the three optional CSV
proposals.
-/

structure SecioKeyPair where
  pub_key : PublicKey
deriving DecidableEq, Repr

/-- `SecioKeyPair::to_public_key`. -/
def SecioKeyPair.to_public_key (k : SecioKeyPair) : PublicKey := k.pub_key

structure Config where
  key : SecioKeyPair
  agreements_proposal : Option String
  ciphers_proposal : Option String
  digests_proposal : Option String
deriving DecidableEq, Repr

/-- The agreements CSV actually used: the config's, or the default. -/
def Config.oursAgreements (c : Config) : String :=
  c.agreements_proposal.getD DEFAULT_AGREEMENTS_PROPOSITION

def Config.oursCiphers (c : Config) : String :=
  c.ciphers_proposal.getD DEFAULT_CIPHERS_PROPOSITION

def Config.oursDigests (c : Config) : String :=
  c.digests_proposal.getD DEFAULT_DIGESTS_PROPOSITION

/-- A config whose derived proposition the binary schema can frame. -/
def Config.valid (c : Config) : Prop :=
  c.key.pub_key.inner.length + 1 < 4294967296 ∧
    c.oursAgreements.data.length < 4294967296 ∧
    c.oursCiphers.data.length < 4294967296 ∧
    c.oursDigests.data.length < 4294967296

instance (c : Config) : Decidable c.valid := by
  unfold Config.valid; infer_instance

/-! ### Handshake contexts (`handshake_context.rs`) -/

/-- `HandshakeContext<T>`: the whole context of a handshake, filled
progressively throughout its parts. -/
structure HandshakeContext (T : Type) where
  config : Config
  state : T
deriving DecidableEq, Repr

/-- State after `with_local`. -/
structure Local where
  nonce : Bytes
  public_key : Bytes
  proposition_bytes : Bytes
deriving DecidableEq, Repr

/-- State after `with_remote`. -/
structure Remote where
  «local» : Local
  proposition_bytes : Bytes
  public_key : PublicKey
  nonce : Bytes
  hashes_ordering : Ordering
  chosen_exchange : KeyAgreement
  chosen_cipher : Cipher
  chosen_hash : Digest
deriving DecidableEq, Repr

/-- State after `with_ephemeral` (the `ring` ephemeral private key is
opaque to this development and modelled as bytes). -/
structure Ephemeral where
  remote : Remote
  local_tmp_priv_key : Bytes
  local_tmp_pub_key : Bytes
deriving DecidableEq, Repr

/-- State after `take_private_key`. -/
structure PubEphemeral where
  remote : Remote
  local_tmp_pub_key : Bytes
deriving DecidableEq, Repr

/-- `HandshakeContext::new`. -/
def HandshakeContext.new (config : Config) : HandshakeContext Unit :=
  ⟨config, ()⟩

/-- `HandshakeContext::<()>::with_local`.  The source draws the 16-byte
nonce from `rand::random()`; the embedding takes it as a parameter. -/
def with_local (c : HandshakeContext Unit) (nonce : Bytes) :
    HandshakeContext Local :=
  let public_key := c.config.key.to_public_key
  let proposition : Propose :=
    { rand := nonce
      pubkey := public_key.encode
      exchange := c.config.oursAgreements
      ciphers := c.config.oursCiphers
      hashes := c.config.oursDigests }
  { config := c.config
    state :=
      { nonce
        public_key := public_key.inner_ref
        proposition_bytes := proposition.encode } }

/-- `HandshakeContext::<Local>::with_remote`. -/
def with_remote (c : HandshakeContext Local) (remote_bytes : Bytes) :
    Except SecioError (HandshakeContext Remote) :=
  match Propose.decode remote_bytes with
  | none => .error .HandshakeParsingFailure
  | some propose =>
    let nonce := propose.rand
    match PublicKey.decode propose.pubkey with
    | none => .error .HandshakeParsingFailure
    | some public_key =>
      if public_key = c.config.key.to_public_key then
        .error .ConnectSelf
      else
        let hashes_ordering :=
          cmpBytes (sha256 (public_key.inner_ref ++ c.state.nonce))
            (sha256 (c.state.public_key ++ nonce))
        match select_agreement hashes_ordering c.config.oursAgreements
            propose.exchange with
        | .error e => .error e
        | .ok chosen_exchange =>
          match select_cipher hashes_ordering c.config.oursCiphers
              propose.ciphers with
          | .error e => .error e
          | .ok chosen_cipher =>
            match select_digest hashes_ordering c.config.oursDigests
                propose.hashes with
            | .error e => .error e
            | .ok chosen_hash =>
              .ok
                { config := c.config
                  state :=
                    { «local» := c.state
                      proposition_bytes := remote_bytes
                      public_key
                      nonce
                      hashes_ordering
                      chosen_exchange
                      chosen_cipher
                      chosen_hash } }

/-- `HandshakeContext::<Remote>::with_ephemeral`. -/
def with_ephemeral (c : HandshakeContext Remote) (sk pk : Bytes) :
    HandshakeContext Ephemeral :=
  { config := c.config
    state := { remote := c.state, local_tmp_priv_key := sk, local_tmp_pub_key := pk } }

/-- `HandshakeContext::<Ephemeral>::take_private_key`. -/
def take_private_key (c : HandshakeContext Ephemeral) :
    HandshakeContext PubEphemeral × Bytes :=
  (⟨c.config, ⟨c.state.remote, c.state.local_tmp_pub_key⟩⟩,
    c.state.local_tmp_priv_key)

/-- The `hashes_ordering` stored by a successful `with_remote`, `none` on
failure. -/
def resultOrdering :
    Except SecioError (HandshakeContext Remote) → Option Ordering
  | .ok r => some r.state.hashes_ordering
  | .error _ => none

/-! ### The handshake progression, reified

In the source every transition is a method consuming `HandshakeContext<S>`
and producing `HandshakeContext<S'>`; to reason about the progression as a
whole, the five context types are packaged into one sum, with one input
variant per transition the source offers.  A state/input pair that no
source method accepts (a Rust type error) maps to `none`.
-/

inductive HState where
  | emptySt (c : HandshakeContext Unit)
  | localSt (c : HandshakeContext Local)
  | remoteSt (c : HandshakeContext Remote)
  | ephemeralSt (c : HandshakeContext Ephemeral)
  | pubEphemeralSt (c : HandshakeContext PubEphemeral)
deriving DecidableEq, Repr

/-- Position of a state in `Empty → Local → Remote → Ephemeral →
PubEphemeral`. -/
def HState.stage : HState → Nat
  | .emptySt _ => 0
  | .localSt _ => 1
  | .remoteSt _ => 2
  | .ephemeralSt _ => 3
  | .pubEphemeralSt _ => 4

/-- One input per transition method of `handshake_context.rs`. -/
inductive HInput where
  | goLocal (nonce : Bytes)
  | goRemote (remote_bytes : Bytes)
  | goEphemeral (sk pk : Bytes)
  | takeKey
deriving DecidableEq, Repr

/-- Dispatch a transition method on a packaged state: exactly the
state/input pairs typeable in the source succeed. -/
def advance : HState → HInput → Option HState
  | .emptySt c, .goLocal nonce => some (.localSt (with_local c nonce))
  | .localSt c, .goRemote bs => (with_remote c bs).toOption.map .remoteSt
  | .remoteSt c, .goEphemeral sk pk => some (.ephemeralSt (with_ephemeral c sk pk))
  | .ephemeralSt c, .takeKey => some (.pubEphemeralSt (take_private_key c).1)
  | _, _ => none

/-! ### Service control tasks (`src/src/service/event.rs`) -/

/-- A structured network endpoint; parsing is external to the core (spec
§1, §6). -/
structure Multiaddr where
  repr : String
deriving DecidableEq, Repr

abbrev SessionId := Nat

abbrev ProtocolId := Nat

/-- `ServiceTask`: the instructions the outside world can send to the
service.  The boxed future payload of `FutureTask` is opaque and modelled
as `Unit`. -/
inductive ServiceTask where
  | ProtocolMessage (session_ids : Option (List SessionId))
      (proto_id : ProtocolId) (data : Bytes)
  | ProtocolNotify (proto_id : ProtocolId) (token : Nat)
  | ProtocolSessionNotify (session_id : SessionId) (proto_id : ProtocolId)
      (token : Nat)
  | FutureTask (task : Unit)
  | Disconnect (session_id : SessionId)
  | Dial (address : Multiaddr)
  | Listen (address : Multiaddr)
deriving DecidableEq, Repr

/-- The field names each `ServiceTask` variant carries, transcribed from
the enum declaration in `event.rs`. -/
def ServiceTask.fieldNames : ServiceTask → List String
  | .ProtocolMessage .. => ["session_ids", "proto_id", "data"]
  | .ProtocolNotify .. => ["proto_id", "token"]
  | .ProtocolSessionNotify .. => ["session_id", "proto_id", "token"]
  | .FutureTask .. => ["task"]
  | .Disconnect .. => ["session_id"]
  | .Dial .. => ["address"]
  | .Listen .. => ["address"]

/-- Whether a task is a `Dial`. -/
def ServiceTask.isDial : ServiceTask → Bool
  | .Dial .. => true
  | _ => false

/-- Whether `with_remote` succeeded. -/
def isOkE : Except SecioError (HandshakeContext Remote) → Bool
  | .ok _ => true
  | .error _ => false

instance {ε α : Type} [DecidableEq ε] [DecidableEq α] :
    DecidableEq (Except ε α) := fun x y =>
  match x, y with
  | .error a, .error b =>
      if h : a = b then isTrue (by rw [h])
      else isFalse fun hc => h (Except.error.inj hc)
  | .ok a, .ok b =>
      if h : a = b then isTrue (by rw [h])
      else isFalse fun hc => h (Except.ok.inj hc)
  | .error _, .ok _ => isFalse Except.noConfusion
  | .ok _, .error _ => isFalse Except.noConfusion

/-! ### Concrete scenarios

Two peers `A` and `B` with distinct one-byte long-term keys and the default
algorithm proposals, plus a third scenario whose two SHA-256 preimages
coincide.  These instantiate the theorems below on concrete runs.
-/

def nAW : Bytes := List.range 16

def nBW : Bytes := (List.range 16).map (· + 16)

def cfgAW : Config := ⟨⟨⟨[1]⟩⟩, none, none, none⟩

def cfgBW : Config := ⟨⟨⟨[2]⟩⟩, none, none, none⟩

def ctxAW : HandshakeContext Local := with_local (HandshakeContext.new cfgAW) nAW

def ctxBW : HandshakeContext Local := with_local (HandshakeContext.new cfgBW) nBW

def bAW : Bytes := ctxAW.state.proposition_bytes

def bBW : Bytes := ctxBW.state.proposition_bytes

/-- The proposition `B` sends, as a structured value. -/
def propBW : Propose :=
  ⟨nBW, PublicKey.encode ⟨[2]⟩, DEFAULT_AGREEMENTS_PROPOSITION,
    DEFAULT_CIPHERS_PROPOSITION, DEFAULT_DIGESTS_PROPOSITION⟩

/-- The `Remote` context `A` reaches after processing `B`'s proposition. -/
def rAW : HandshakeContext Remote :=
  ⟨cfgAW, ⟨ctxAW.state, bBW, ⟨[2]⟩, nBW, .lt, .EcdhP256, .Aes128, .Sha256⟩⟩

/-- The `Remote` context `B` reaches after processing `A`'s proposition. -/
def rBW : HandshakeContext Remote :=
  ⟨cfgBW, ⟨ctxBW.state, bAW, ⟨[1]⟩, nAW, .gt, .EcdhP256, .Aes128, .Sha256⟩⟩

/-- A remote proposition carrying the same public key as `cfgAW`, with
junk CSV fields. -/
def propSelfW : Propose := ⟨nBW, PublicKey.encode ⟨[1]⟩, "x", "", "zz"⟩

/-- Local key `[1,2]` for the Equal-ordering scenario. -/
def cfg4W : Config := ⟨⟨⟨[1, 2]⟩⟩, none, none, none⟩

/-- Local 16-byte nonce `[2,0,…,0]` for the Equal-ordering scenario. -/
def n4W : Bytes := 2 :: List.replicate 15 0

def ctx4W : HandshakeContext Local := with_local (HandshakeContext.new cfg4W) n4W

/-- Remote proposition with key `[1]` and 15-byte nonce `[0,…,0]`: both
tie-break preimages are `[1,2,0,…,0]`, so the two digests coincide. -/
def prop4W : Propose :=
  ⟨List.replicate 15 0, PublicKey.encode ⟨[1]⟩, DEFAULT_AGREEMENTS_PROPOSITION,
    DEFAULT_CIPHERS_PROPOSITION, DEFAULT_DIGESTS_PROPOSITION⟩

def b4W : Bytes := prop4W.encode

def addrW : Multiaddr := ⟨"/ip4/127.0.0.1/tcp/1337"⟩

/-! ## Codec lemmas -/

theorem fromBE4_toBE4 (n : Nat) (h : n < 4294967296) :
    fromBE4 (n / 16777216 % 256) (n / 65536 % 256) (n / 256 % 256) (n % 256)
      = n := by
  unfold fromBE4
  omega

theorem readBlock_cons (a b c d : Nat) (rest : Bytes) :
    readBlock (a :: b :: c :: d :: rest) =
      if fromBE4 a b c d ≤ rest.length then
        some (rest.take (fromBE4 a b c d), rest.drop (fromBE4 a b c d))
      else none := rfl

theorem readBlock_encBlock (b rest : Bytes) (h : b.length < 4294967296) :
    readBlock (encBlock b ++ rest) = some (b, rest) := by
  have hlist : encBlock b ++ rest =
      b.length / 16777216 % 256 :: b.length / 65536 % 256 ::
        b.length / 256 % 256 :: b.length % 256 :: (b ++ rest) := by
    simp [encBlock, toBE4]
  rw [hlist, readBlock_cons, fromBE4_toBE4 _ h,
    if_pos (by simp), List.take_left, List.drop_left]

theorem bytesStr_strBytes (s : String) : bytesStr (strBytes s) = s := by
  have h : ∀ l : List Char, (l.map Char.toNat).map Char.ofNat = l := by
    intro l
    induction l with
    | nil => rfl
    | cons c cs ih => simp [Char.ofNat_toNat, ih]
  unfold bytesStr strBytes
  rw [h]

theorem strBytes_length (s : String) : (strBytes s).length = s.data.length := by
  simp [strBytes]

theorem publicKey_decode_encode (k : PublicKey) :
    PublicKey.decode k.encode = some k := rfl

/-- Round-trip of the proposition codec on schema-framable propositions. -/
theorem Propose.decode_encode (p : Propose) (h : p.valid) :
    Propose.decode p.encode = some p := by
  obtain ⟨h1, h2, h3, h4, h5⟩ := h
  have e3 : (strBytes p.exchange).length < 4294967296 := by
    rw [strBytes_length]; exact h3
  have e4 : (strBytes p.ciphers).length < 4294967296 := by
    rw [strBytes_length]; exact h4
  have e5 : (strBytes p.hashes).length < 4294967296 := by
    rw [strBytes_length]; exact h5
  have hlast : readBlock (encBlock (strBytes p.hashes)) =
      some (strBytes p.hashes, []) := by
    have := readBlock_encBlock (strBytes p.hashes) [] e5
    rwa [List.append_nil] at this
  unfold Propose.encode
  simp only [Propose.decode, List.append_assoc, readBlock_encBlock _ _ h1,
    readBlock_encBlock _ _ h2, readBlock_encBlock _ _ e3,
    readBlock_encBlock _ _ e4, hlast, bytesStr_strBytes]
  simp

/-- Claim C8 — Encode-then-decode is the identity on every proposition the
fixed binary schema can frame. -/
theorem propose_encode_decode_roundtrip (p : Propose) (h : p.valid) :
    Propose.decode p.encode = some p :=
  Propose.decode_encode p h

/-- Decoding the proposition bytes produced by `with_local` recovers the
local proposition. -/
theorem decode_local_proposition (cfg : Config) (nonce : Bytes)
    (hv : cfg.valid) (hl : nonce.length < 4294967296) :
    Propose.decode
        (with_local (HandshakeContext.new cfg) nonce).state.proposition_bytes =
      some ⟨nonce, (cfg.key.to_public_key).encode, cfg.oursAgreements,
        cfg.oursCiphers, cfg.oursDigests⟩ := by
  obtain ⟨v1, v2, v3, v4⟩ := hv
  exact Propose.decode_encode _
    ⟨hl, by simpa [PublicKey.encode, SecioKeyPair.to_public_key] using v1,
      v2, v3, v4⟩

/-- Witness for C8 at a concrete proposition. -/
theorem propose_encode_decode_roundtrip_witness :
    (Propose.valid ⟨[7, 8], [0, 1], "P-256", "AES-128", "SHA256"⟩) ∧
      Propose.decode (Propose.encode ⟨[7, 8], [0, 1], "P-256", "AES-128", "SHA256"⟩)
        = some ⟨[7, 8], [0, 1], "P-256", "AES-128", "SHA256"⟩ :=
  ⟨by decide,
    propose_encode_decode_roundtrip ⟨[7, 8], [0, 1], "P-256", "AES-128", "SHA256"⟩
      (by decide)⟩

/-! ## Ordering and selection lemmas -/

theorem cmpByte_swap (a b : Nat) : cmpByte b a = (cmpByte a b).swap := by
  unfold cmpByte
  split
  next hba => rw [if_neg (by omega), if_neg (by omega)]; rfl
  next hba =>
    split
    next heq =>
      subst heq
      rw [if_neg (by omega), if_pos rfl]; rfl
    next hne => rw [if_pos (by omega)]; rfl

theorem cmpBytes_swap (a b : Bytes) : cmpBytes b a = (cmpBytes a b).swap := by
  induction a generalizing b with
  | nil => cases b <;> rfl
  | cons x xs ih =>
    cases b with
    | nil => rfl
    | cons y ys =>
      simp only [cmpBytes, cmpByte_swap y x]
      cases h : cmpByte y x with
      | lt => simp [h, Ordering.swap]
      | eq => simp [h, Ordering.swap]; exact ih ys
      | gt => simp [h, Ordering.swap]

theorem select_common_swap (r : Ordering) (h : r ≠ .eq) (x y : String) :
    select_common r.swap y x = select_common r x y := by
  cases r with
  | lt => rfl
  | eq => exact absurd rfl h
  | gt => rfl

theorem select_agreement_swap (r : Ordering) (h : r ≠ .eq) (x y : String) :
    select_agreement r.swap y x = select_agreement r x y := by
  unfold select_agreement
  rw [select_common_swap r h]

theorem select_cipher_swap (r : Ordering) (h : r ≠ .eq) (x y : String) :
    select_cipher r.swap y x = select_cipher r x y := by
  unfold select_cipher
  rw [select_common_swap r h]

theorem select_digest_swap (r : Ordering) (h : r ≠ .eq) (x y : String) :
    select_digest r.swap y x = select_digest r x y := by
  unfold select_digest
  rw [select_common_swap r h]

theorem select_agreement_error {r : Ordering} {a b : String} {e : SecioError}
    (h : select_agreement r a b = .error e) : e = .NoSupportIntersection := by
  unfold select_agreement at h
  split at h
  · split at h
    · cases h
    · cases h; rfl
  · cases h; rfl

theorem select_cipher_error {r : Ordering} {a b : String} {e : SecioError}
    (h : select_cipher r a b = .error e) : e = .NoSupportIntersection := by
  unfold select_cipher at h
  split at h
  · split at h
    · cases h
    · cases h; rfl
  · cases h; rfl

theorem select_digest_error {r : Ordering} {a b : String} {e : SecioError}
    (h : select_digest r a b = .error e) : e = .NoSupportIntersection := by
  unfold select_digest at h
  split at h
  · split at h
    · cases h
    · cases h; rfl
  · cases h; rfl

/-! ## Inversion of `with_remote` -/

/-- Everything a successful `with_remote` run tells us, read off the
source's control flow. -/
theorem with_remote_ok_elim {c : HandshakeContext Local} {bytes : Bytes}
    {r : HandshakeContext Remote} (h : with_remote c bytes = .ok r) :
    ∃ p k,
      Propose.decode bytes = some p ∧
      PublicKey.decode p.pubkey = some k ∧
      k ≠ c.config.key.to_public_key ∧
      r.config = c.config ∧
      r.state.«local» = c.state ∧
      r.state.proposition_bytes = bytes ∧
      r.state.public_key = k ∧
      r.state.nonce = p.rand ∧
      r.state.hashes_ordering =
        cmpBytes (sha256 (k.inner_ref ++ c.state.nonce))
          (sha256 (c.state.public_key ++ p.rand)) ∧
      select_agreement r.state.hashes_ordering c.config.oursAgreements
        p.exchange = .ok r.state.chosen_exchange ∧
      select_cipher r.state.hashes_ordering c.config.oursCiphers
        p.ciphers = .ok r.state.chosen_cipher ∧
      select_digest r.state.hashes_ordering c.config.oursDigests
        p.hashes = .ok r.state.chosen_hash := by
  simp only [with_remote] at h
  split at h
  · cases h
  next p hp =>
    split at h
    · cases h
    next k hk =>
      split at h
      · cases h
      next hne =>
        split at h
        · cases h
        next a ha =>
          split at h
          · cases h
          next ci hci =>
            split at h
            · cases h
            next d hd =>
              cases h
              exact ⟨p, k, hp, hk, hne, rfl, rfl, rfl, rfl, rfl, rfl, ha, hci, hd⟩

/-! ## Claims about `with_remote` -/

/-- Claim C1 — For every successfully parsed remote proposition whose
public key differs from the local one, the stored `hashes_ordering` is
`cmp(SHA256(remote_pubkey ‖ local_nonce), SHA256(local_pubkey ‖
remote_nonce))`, computed over the raw public-key bytes and the two
propositions' nonces. -/
theorem with_remote_stores_tiebreak_ordering
    (c : HandshakeContext Local) (bytes : Bytes) (p : Propose) (k : PublicKey)
    (r : HandshakeContext Remote)
    (hp : Propose.decode bytes = some p)
    (hk : PublicKey.decode p.pubkey = some k)
    (hne : k ≠ c.config.key.to_public_key)
    (hok : with_remote c bytes = .ok r) :
    r.state.hashes_ordering =
      cmpBytes (sha256 (k.inner_ref ++ c.state.nonce))
        (sha256 (c.state.public_key ++ p.rand)) := by
  obtain ⟨p', k', hp', hk', -, -, -, -, -, -, hord, -⟩ := with_remote_ok_elim hok
  obtain rfl : p' = p := by rw [hp] at hp'; exact (Option.some.injEq _ _).mp hp'.symm
  obtain rfl : k' = k := by rw [hk] at hk'; exact (Option.some.injEq _ _).mp hk'.symm
  exact hord

/-- Witness for C1: peer `A` processing peer `B`'s proposition. -/
theorem with_remote_stores_tiebreak_ordering_witness :
    Propose.decode bBW = some propBW ∧
      PublicKey.decode propBW.pubkey = some ⟨[2]⟩ ∧
      (⟨[2]⟩ : PublicKey) ≠ cfgAW.key.to_public_key ∧
      with_remote ctxAW bBW = .ok rAW ∧
      rAW.state.hashes_ordering =
        cmpBytes (sha256 (PublicKey.inner_ref ⟨[2]⟩ ++ ctxAW.state.nonce))
          (sha256 (ctxAW.state.public_key ++ propBW.rand)) :=
  ⟨by decide, by decide, by decide, by decide,
    with_remote_stores_tiebreak_ordering ctxAW bBW propBW ⟨[2]⟩ rAW
      (by decide) (by decide) (by decide) (by decide)⟩

/-- Claim C10 — A successful `with_remote` keeps the config and the whole
`Local` state unchanged inside the `Remote` state, and stores the input
bytes verbatim as the remote proposition bytes. -/
theorem with_remote_frame
    (c : HandshakeContext Local) (bytes : Bytes) (r : HandshakeContext Remote)
    (hok : with_remote c bytes = .ok r) :
    r.config = c.config ∧ r.state.«local» = c.state ∧
      r.state.proposition_bytes = bytes := by
  obtain ⟨-, -, -, -, -, hcfg, hloc, hbytes, -⟩ := with_remote_ok_elim hok
  exact ⟨hcfg, hloc, hbytes⟩

/-- Witness for C10 on the concrete `A`/`B` run. -/
theorem with_remote_frame_witness :
    with_remote ctxAW bBW = .ok rAW ∧
      rAW.config = ctxAW.config ∧ rAW.state.«local» = ctxAW.state ∧
      rAW.state.proposition_bytes = bBW :=
  ⟨by decide, with_remote_frame ctxAW bBW rAW (by decide)⟩

/-- Claim C3 — If the remote proposition parses and its embedded public
key equals the local long-term public key, `with_remote` fails with
`ConnectSelf`, whatever the CSV lists say. -/
theorem with_remote_connect_self
    (c : HandshakeContext Local) (bytes : Bytes) (p : Propose) (k : PublicKey)
    (hp : Propose.decode bytes = some p)
    (hk : PublicKey.decode p.pubkey = some k)
    (heq : k = c.config.key.to_public_key) :
    with_remote c bytes = .error .ConnectSelf := by
  simp only [with_remote, hp, hk]
  rw [if_pos heq]

/-- Witness for C3: a remote proposition embedding `A`'s own key and junk
CSV fields. -/
theorem with_remote_connect_self_witness :
    Propose.decode propSelfW.encode = some propSelfW ∧
      PublicKey.decode propSelfW.pubkey = some ⟨[1]⟩ ∧
      (⟨[1]⟩ : PublicKey) = cfgAW.key.to_public_key ∧
      with_remote ctxAW propSelfW.encode = .error .ConnectSelf :=
  ⟨by decide, by decide, by decide,
    with_remote_connect_self ctxAW propSelfW.encode propSelfW ⟨[1]⟩
      (by decide) (by decide) (by decide)⟩

/-- Claim C5 — `with_remote` returns `HandshakeParsingFailure` exactly when
the remote bytes fail to decode as a proposition or the proposition's
pubkey field fails to decode as a public key; being an error, no `Remote`
state is produced in that case. -/
theorem with_remote_parsing_failure_iff
    (c : HandshakeContext Local) (bytes : Bytes) :
    with_remote c bytes = .error .HandshakeParsingFailure ↔
      Propose.decode bytes = none ∨
        ∃ p, Propose.decode bytes = some p ∧
          PublicKey.decode p.pubkey = none := by
  constructor
  · intro h
    cases hd : Propose.decode bytes with
    | none => exact .inl rfl
    | some p =>
      refine .inr ⟨p, rfl, ?_⟩
      cases hk : PublicKey.decode p.pubkey with
      | none => rfl
      | some k =>
        exfalso
        simp only [with_remote, hd, hk] at h
        split at h
        · cases h
        · split at h
          next e he => cases h; cases select_agreement_error he
          next a ha =>
            split at h
            next e he => cases h; cases select_cipher_error he
            next ci hci =>
              split at h
              next e he => cases h; cases select_digest_error he
              next d hd2 => cases h
  · rintro (hd | ⟨p, hd, hk⟩)
    · simp [with_remote, hd]
    · simp [with_remote, hd, hk]

/-- Counterexample to claim C4 — a concrete run (local key `[1,2]`, local
nonce `[2,0,…,0]`, remote key `[1]`, remote nonce `[0,…,0]`) in which the
two tie-break digests coincide, yet `with_remote` succeeds and returns a
`Remote` state carrying `Ordering.eq` instead of aborting. -/
theorem with_remote_accepts_equal_ordering_example :
    isOkE (with_remote ctx4W b4W) = true ∧
      resultOrdering (with_remote ctx4W b4W) = some .eq :=
  ⟨by decide, by decide⟩

/-- Claim C4 as amended — `with_remote` never inspects the computed
`hashes_ordering`: when parsing succeeds, the keys differ, the ordering
comes out `Equal` and the three selections succeed at `Equal`, it returns
a `Remote` state carrying `Equal` rather than aborting. -/
theorem with_remote_no_equal_ordering_check
    (c : HandshakeContext Local) (bytes : Bytes) (p : Propose) (k : PublicKey)
    (hp : Propose.decode bytes = some p)
    (hk : PublicKey.decode p.pubkey = some k)
    (hne : k ≠ c.config.key.to_public_key)
    (hord : cmpBytes (sha256 (k.inner_ref ++ c.state.nonce))
        (sha256 (c.state.public_key ++ p.rand)) = .eq)
    (h1 : (select_agreement .eq c.config.oursAgreements p.exchange).isOk = true)
    (h2 : (select_cipher .eq c.config.oursCiphers p.ciphers).isOk = true)
    (h3 : (select_digest .eq c.config.oursDigests p.hashes).isOk = true) :
    resultOrdering (with_remote c bytes) = some .eq := by
  simp only [with_remote, hp, hk]
  rw [if_neg hne]
  simp only [hord]
  cases ha : select_agreement .eq c.config.oursAgreements p.exchange with
  | error e => rw [ha] at h1; cases h1
  | ok a =>
    cases hc : select_cipher .eq c.config.oursCiphers p.ciphers with
    | error e => rw [hc] at h2; cases h2
    | ok ci =>
      cases hd : select_digest .eq c.config.oursDigests p.hashes with
      | error e => rw [hd] at h3; cases h3
      | ok d =>
        simp [ha, hc, hd, resultOrdering]

/-- Witness for the amended C4 at the Equal-ordering scenario. -/
theorem with_remote_no_equal_ordering_check_witness :
    Propose.decode b4W = some prop4W ∧
      PublicKey.decode prop4W.pubkey = some ⟨[1]⟩ ∧
      (⟨[1]⟩ : PublicKey) ≠ ctx4W.config.key.to_public_key ∧
      cmpBytes (sha256 (PublicKey.inner_ref ⟨[1]⟩ ++ ctx4W.state.nonce))
        (sha256 (ctx4W.state.public_key ++ prop4W.rand)) = .eq ∧
      (select_agreement .eq ctx4W.config.oursAgreements
        prop4W.exchange).isOk = true ∧
      resultOrdering (with_remote ctx4W b4W) = some .eq :=
  ⟨by decide, by decide, by decide, by decide, by decide,
    with_remote_no_equal_ordering_check ctx4W b4W prop4W ⟨[1]⟩
      (by decide) (by decide) (by decide) (by decide) (by decide) (by decide)
      (by decide)⟩

theorem with_local_new_config (cfg : Config) (n : Bytes) :
    (with_local (HandshakeContext.new cfg) n).config = cfg := rfl

/-- Counterexample to claim C2 — on a concrete symmetric run (keys `[1]`
and `[2]`, default proposals) both `with_remote` calls succeed but the two
peers store different `hashes_ordering` values. -/
theorem peers_same_ordering_counterexample :
    isOkE (with_remote ctxAW bBW) = true ∧
      isOkE (with_remote ctxBW bAW) = true ∧
      resultOrdering (with_remote ctxAW bBW) ≠
        resultOrdering (with_remote ctxBW bAW) :=
  ⟨by decide, by decide, by decide⟩

/-- Claim C2 as amended — when two peers each run `with_remote` on the
other's proposition and both succeed, they compute *opposite* (swapped)
`hashes_ordering` values, and, whenever that ordering is not `Equal`, the
same exchange, cipher and hash selections. -/
theorem peers_opposite_ordering_same_selection
    (cfgA cfgB : Config) (nA nB : Bytes) (rA rB : HandshakeContext Remote)
    (hvA : cfgA.valid) (hvB : cfgB.valid)
    (hlA : nA.length = 16) (hlB : nB.length = 16)
    (hA : with_remote (with_local (HandshakeContext.new cfgA) nA)
        (with_local (HandshakeContext.new cfgB) nB).state.proposition_bytes
        = .ok rA)
    (hB : with_remote (with_local (HandshakeContext.new cfgB) nB)
        (with_local (HandshakeContext.new cfgA) nA).state.proposition_bytes
        = .ok rB) :
    rB.state.hashes_ordering = rA.state.hashes_ordering.swap ∧
      (rA.state.hashes_ordering ≠ .eq →
        rB.state.chosen_exchange = rA.state.chosen_exchange ∧
          rB.state.chosen_cipher = rA.state.chosen_cipher ∧
          rB.state.chosen_hash = rA.state.chosen_hash) := by
  obtain ⟨pB, kB, hpB, hkB, -, -, -, -, -, -, hordA, hagA, hciA, hdgA⟩ :=
    with_remote_ok_elim hA
  obtain ⟨pA, kA, hpA, hkA, -, -, -, -, -, -, hordB, hagB, hciB, hdgB⟩ :=
    with_remote_ok_elim hB
  rw [decode_local_proposition cfgB nB hvB (by omega)] at hpB
  obtain rfl : pB = ⟨nB, (cfgB.key.to_public_key).encode, cfgB.oursAgreements,
      cfgB.oursCiphers, cfgB.oursDigests⟩ := (Option.some.inj hpB).symm
  rw [decode_local_proposition cfgA nA hvA (by omega)] at hpA
  obtain rfl : pA = ⟨nA, (cfgA.key.to_public_key).encode, cfgA.oursAgreements,
      cfgA.oursCiphers, cfgA.oursDigests⟩ := (Option.some.inj hpA).symm
  dsimp only at hkB hkA
  rw [publicKey_decode_encode] at hkB hkA
  obtain rfl : kB = cfgB.key.to_public_key := (Option.some.inj hkB).symm
  obtain rfl : kA = cfgA.key.to_public_key := (Option.some.inj hkA).symm
  dsimp only at hordA hordB hagA hagB hciA hciB hdgA hdgB
  simp only [with_local_new_config] at hagA hagB hciA hciB hdgA hdgB
  have hswap : rB.state.hashes_ordering = rA.state.hashes_ordering.swap := by
    rw [hordA, hordB]
    exact cmpBytes_swap _ _
  refine ⟨hswap, fun hne => ⟨?_, ?_, ?_⟩⟩
  · rw [hswap, select_agreement_swap _ hne, hagA] at hagB
    exact (Except.ok.inj hagB).symm
  · rw [hswap, select_cipher_swap _ hne, hciA] at hciB
    exact (Except.ok.inj hciB).symm
  · rw [hswap, select_digest_swap _ hne, hdgA] at hdgB
    exact (Except.ok.inj hdgB).symm

/-- Witness for the amended C2 on the concrete `A`/`B` run. -/
theorem peers_opposite_ordering_same_selection_witness :
    cfgAW.valid ∧ cfgBW.valid ∧ nAW.length = 16 ∧ nBW.length = 16 ∧
      with_remote (with_local (HandshakeContext.new cfgAW) nAW)
        (with_local (HandshakeContext.new cfgBW) nBW).state.proposition_bytes
        = .ok rAW ∧
      with_remote (with_local (HandshakeContext.new cfgBW) nBW)
        (with_local (HandshakeContext.new cfgAW) nAW).state.proposition_bytes
        = .ok rBW ∧
      (rBW.state.hashes_ordering = rAW.state.hashes_ordering.swap ∧
        (rAW.state.hashes_ordering ≠ .eq →
          rBW.state.chosen_exchange = rAW.state.chosen_exchange ∧
            rBW.state.chosen_cipher = rAW.state.chosen_cipher ∧
            rBW.state.chosen_hash = rAW.state.chosen_hash)) :=
  ⟨by decide, by decide, by decide, by decide, by decide, by decide,
    peers_opposite_ordering_same_selection cfgAW cfgBW nAW nBW rAW rBW
      (by decide) (by decide) (by decide) (by decide) (by decide) (by decide)⟩

/-! ## Claims about `with_local` and the progression -/

/-- Claim C6 — `with_local` stores the 16-byte nonce, the raw local
public-key bytes, and the encoding of a proposition carrying that nonce as
`rand`, the encoded local public key as `pubkey`, and the config's CSV
proposals with fallback to the spec §6 defaults. -/
theorem with_local_builds_proposition (cfg : Config) (nonce : Bytes)
    (h : nonce.length = 16) :
    (with_local (HandshakeContext.new cfg) nonce).state.nonce = nonce ∧
      (with_local (HandshakeContext.new cfg) nonce).state.nonce.length = 16 ∧
      (with_local (HandshakeContext.new cfg) nonce).state.public_key =
        (cfg.key.to_public_key).inner_ref ∧
      (with_local (HandshakeContext.new cfg) nonce).state.proposition_bytes =
        Propose.encode ⟨nonce, (cfg.key.to_public_key).encode,
          cfg.agreements_proposal.getD DEFAULT_AGREEMENTS_PROPOSITION,
          cfg.ciphers_proposal.getD DEFAULT_CIPHERS_PROPOSITION,
          cfg.digests_proposal.getD DEFAULT_DIGESTS_PROPOSITION⟩ ∧
      DEFAULT_AGREEMENTS_PROPOSITION = "P-256,P-384,P-521,X25519" ∧
      DEFAULT_CIPHERS_PROPOSITION = "AES-128,AES-256,TwofishCTR" ∧
      DEFAULT_DIGESTS_PROPOSITION = "SHA256,SHA512" :=
  ⟨rfl, h, rfl, rfl, rfl, rfl, rfl⟩

/-- Witness for C6 at the concrete config of peer `A`. -/
theorem with_local_builds_proposition_witness :
    nAW.length = 16 ∧
      ((with_local (HandshakeContext.new cfgAW) nAW).state.nonce = nAW ∧
        (with_local (HandshakeContext.new cfgAW) nAW).state.nonce.length = 16 ∧
        (with_local (HandshakeContext.new cfgAW) nAW).state.public_key =
          (cfgAW.key.to_public_key).inner_ref ∧
        (with_local (HandshakeContext.new cfgAW) nAW).state.proposition_bytes =
          Propose.encode ⟨nAW, (cfgAW.key.to_public_key).encode,
            cfgAW.agreements_proposal.getD DEFAULT_AGREEMENTS_PROPOSITION,
            cfgAW.ciphers_proposal.getD DEFAULT_CIPHERS_PROPOSITION,
            cfgAW.digests_proposal.getD DEFAULT_DIGESTS_PROPOSITION⟩ ∧
        DEFAULT_AGREEMENTS_PROPOSITION = "P-256,P-384,P-521,X25519" ∧
        DEFAULT_CIPHERS_PROPOSITION = "AES-128,AES-256,TwofishCTR" ∧
        DEFAULT_DIGESTS_PROPOSITION = "SHA256,SHA512") :=
  ⟨by decide, with_local_builds_proposition cfgAW nAW (by decide)⟩

/-- Claim C7 — the handshake context is a linear state machine: every
transition the source offers takes a context at stage `n` of
`Empty → Local → Remote → Ephemeral → PubEphemeral` to one at stage
`n + 1`; no state/input pair reaches an earlier or skipped stage. -/
theorem advance_strictly_linear (s : HState) (i : HInput) (s' : HState)
    (h : advance s i = some s') : s'.stage = s.stage + 1 := by
  cases s with
  | emptySt c =>
    cases i with
    | goLocal n => obtain rfl := (Option.some.inj h).symm; rfl
    | goRemote b => exact Option.noConfusion h
    | goEphemeral sk pk => exact Option.noConfusion h
    | takeKey => exact Option.noConfusion h
  | localSt c =>
    cases i with
    | goLocal n => exact Option.noConfusion h
    | goRemote b =>
      simp only [advance] at h
      cases hw : with_remote c b with
      | error e => rw [hw] at h; exact Option.noConfusion h
      | ok r =>
        rw [hw] at h
        obtain rfl : s' = .remoteSt r := by
          simpa [Except.toOption] using h.symm
        rfl
    | goEphemeral sk pk => exact Option.noConfusion h
    | takeKey => exact Option.noConfusion h
  | remoteSt c =>
    cases i with
    | goLocal n => exact Option.noConfusion h
    | goRemote b => exact Option.noConfusion h
    | goEphemeral sk pk => obtain rfl := (Option.some.inj h).symm; rfl
    | takeKey => exact Option.noConfusion h
  | ephemeralSt c =>
    cases i with
    | goLocal n => exact Option.noConfusion h
    | goRemote b => exact Option.noConfusion h
    | goEphemeral sk pk => exact Option.noConfusion h
    | takeKey => obtain rfl := (Option.some.inj h).symm; rfl
  | pubEphemeralSt c =>
    cases i <;> exact Option.noConfusion h

/-- Witness for C7: the `Empty → Local` step on a concrete context. -/
theorem advance_strictly_linear_witness :
    advance (.emptySt (HandshakeContext.new cfgAW)) (.goLocal nAW) =
      some (.localSt (with_local (HandshakeContext.new cfgAW) nAW)) ∧
      (HState.localSt (with_local (HandshakeContext.new cfgAW) nAW)).stage =
        (HState.emptySt (HandshakeContext.new cfgAW)).stage + 1 :=
  ⟨rfl,
    advance_strictly_linear (.emptySt (HandshakeContext.new cfgAW))
      (.goLocal nAW) (.localSt (with_local (HandshakeContext.new cfgAW) nAW))
      rfl⟩

/-! ## Claim about the `ServiceTask` vocabulary -/

/-- Counterexample to claim C9 — the concrete `Dial` task for
`/ip4/127.0.0.1/tcp/1337` carries exactly one input field, `address`; it
has no target-protocol selector. -/
theorem dial_task_fields_example :
    (ServiceTask.Dial addrW).fieldNames = ["address"] := rfl

/-- Claim C9 as amended — every `Dial` task carries a multiaddress as its
only input; there is no target-protocol selector field. -/
theorem dial_task_only_address (t : ServiceTask) (h : t.isDial = true) :
    t.fieldNames = ["address"] := by
  cases t <;> simp_all [ServiceTask.isDial, ServiceTask.fieldNames]

/-- Witness for the amended C9. -/
theorem dial_task_only_address_witness :
    (ServiceTask.Dial addrW).isDial = true ∧
      (ServiceTask.Dial addrW).fieldNames = ["address"] :=
  ⟨rfl, dial_task_only_address (ServiceTask.Dial addrW) rfl⟩

end P2P
